import Mathlib

/-!
Verification development for `lib/update.js` of the `square` third-party
bundle updater.

The JavaScript source is shallowly embedded: each regular expression of the
source is translated into an executable matcher over `List Char`, the
line-scanning downloader (`Update.prototype.req`), the raw-URL transform
(`Update.prototype.raw`), the HTTP downloader (`Update.prototype.download`),
the fetcher dispatch and the per-bundle orchestration (`Update.prototype.execute`)
become pure functions with the network, the file system and the GitHub API
supplied as explicit oracle inputs.

Notes on regex fidelity.  `Update.prototype.version` recompiles the two
version patterns with `new RegExp(source)` (no flags), so matching is
case-sensitive, non-global and non-multiline; `exec` returns the leftmost
match.  Every star/plus in the embedded patterns ranges over a single
character class, and adjacent classes are disjoint wherever a shorter
(backtracked) run could be retried, so the greedy deterministic matchers
below compute exactly the backtracking semantics of the source patterns.
-/

/-! ### Character classes of the source regexes -/

/-- JavaScript `\s`: WhiteSpace and LineTerminator code points. -/
def isJsSpace (c : Char) : Bool :=
  let n := c.toNat
  (9 ≤ n && n ≤ 13) || n = 32 || n = 160 || n = 0x1680 ||
    (0x2000 ≤ n && n ≤ 0x200a) || n = 0x2028 || n = 0x2029 ||
    n = 0x202f || n = 0x205f || n = 0x3000 || n = 0xfeff

/-- The class `[v=]` from the two version patterns (recompiled without `i`). -/
def isVEq (c : Char) : Bool := c == 'v' || c == '='

/-- The class `[0-9]` (also `\d`). -/
def isDigitC (c : Char) : Bool := 48 ≤ c.toNat && c.toNat ≤ 57

/-- The class `[a-zA-Z-]` opening the tag group of both version patterns. -/
def isTagStart (c : Char) : Bool :=
  let n := c.toNat
  (65 ≤ n && n ≤ 90) || (97 ≤ n && n ≤ 122) || c == '-'

/-- The class `[a-zA-Z0-9-.:]` continuing the tag group. -/
def isTagRest (c : Char) : Bool :=
  isTagStart c || isDigitC c || c == '.' || c == ':'

/-- The class `[\w.-]` of `githubRE`. -/
def isWordDotDash (c : Char) : Bool :=
  isDigitC c || (65 ≤ c.toNat && c.toNat ≤ 90) || (97 ≤ c.toNat && c.toNat ≤ 122) ||
    c == '_' || c == '.' || c == '-'

/-- JavaScript `.` (no `s` flag): any character except a LineTerminator. -/
def notLineTerm (c : Char) : Bool :=
  !(c.toNat = 10 || c.toNat = 13 || c.toNat = 0x2028 || c.toNat = 0x2029)

/-! ### VersionExtractor (`Update.prototype.version`, lines 239-263)

The strict pattern (`semver`, lines 21-29):
`\s*[v=]*\s*([0-9]+)\.([0-9]+)\.([0-9]+)(-[0-9]+-?)?([a-zA-Z-][a-zA-Z0-9-\.:]*)?`.
Groups 4 and 5 are optional and are not read by `version`, and once groups
1-3 have matched the optional tail always succeeds, so they are omitted
from the matcher's result.

The loose pattern (`sillyver`, lines 38-44):
`\s*[v=]*\s*(\d)\.([\d][-\s]?)(?:([a-zA-Z-][a-zA-Z0-9-.:]*)?)?`.
Note that it DOES have a third capture group (the tag), which `version`
reads as `match[3]`. -/

/-- The shared prefix `\s*[v=]*\s*` of both version patterns (greedy;
the classes are disjoint, so the greedy runs are the only candidate). -/
def skipPreamble (cs : List Char) : List Char :=
  ((cs.dropWhile isJsSpace).dropWhile isVEq).dropWhile isJsSpace

/-- Match `([0-9]+)\.([0-9]+)\.([0-9]+)` at the head of `r` (after the
preamble), returning the three captures. -/
def strictCore (r : List Char) : Option (String × String × String) :=
  let g1 := r.takeWhile isDigitC
  if g1.isEmpty then none else
  match r.dropWhile isDigitC with
  | '.' :: r2 =>
    let g2 := r2.takeWhile isDigitC
    if g2.isEmpty then none else
    match r2.dropWhile isDigitC with
    | '.' :: r4 =>
      let g3 := r4.takeWhile isDigitC
      if g3.isEmpty then none else some (String.mk g1, String.mk g2, String.mk g3)
    | _ => none
  | _ => none

/-- One attempt of the strict pattern anchored at the head of `cs`. -/
def strictAttempt (cs : List Char) : Option (String × String × String) :=
  strictCore (skipPreamble cs)

/-- `exec` of the strict pattern: leftmost successful attempt. -/
def strictSearch : List Char → Option (String × String × String)
  | [] => none
  | c :: rest =>
    match strictAttempt (c :: rest) with
    | some r => some r
    | none => strictSearch rest

/-- The optional tag group `([a-zA-Z-][a-zA-Z0-9-.:]*)?` of the loose
pattern; `none` when the group does not participate. -/
def looseTag : List Char → Option String
  | [] => none
  | c :: rest =>
    if isTagStart c then some (String.mk (c :: rest.takeWhile isTagRest)) else none

/-- Match `(\d)\.([\d][-\s]?)(?:(tag)?)?` at the head of `r`.  The second
group greedily includes the optional `[-\s]` character when present. -/
def looseCore (r : List Char) : Option (String × String × Option String) :=
  match r with
  | d1 :: '.' :: d2 :: rest =>
    if isDigitC d1 && isDigitC d2 then
      match rest with
      | c :: rest2 =>
        if c == '-' || isJsSpace c then
          some (String.mk [d1], String.mk [d2, c], looseTag rest2)
        else
          some (String.mk [d1], String.mk [d2], looseTag rest)
      | [] => some (String.mk [d1], String.mk [d2], none)
    else none
  | _ => none

/-- One attempt of the loose pattern anchored at the head of `cs`. -/
def looseAttempt (cs : List Char) : Option (String × String × Option String) :=
  looseCore (skipPreamble cs)

/-- `exec` of the loose pattern: leftmost successful attempt. -/
def looseSearch : List Char → Option (String × String × Option String)
  | [] => none
  | c :: rest =>
    match looseAttempt (c :: rest) with
    | some r => some r
    | none => looseSearch rest

/-- JavaScript `String.prototype.trim` (strips WhiteSpace/LineTerminator,
the same set as `\s`). -/
def jsTrim (s : String) : String :=
  String.mk (((s.data.dropWhile isJsSpace).reverse.dropWhile isJsSpace).reverse)

/-- `Update.prototype.version` (lines 239-263): try the strict pattern,
fall back to the loose one; a participating (truthy) group is trimmed,
a missing group becomes `0`; the three components are dot-joined.  All
participating groups of both patterns are nonempty strings, so truthiness
coincides with participation. -/
def version (content : String) : Option String :=
  match strictSearch content.data with
  | some (g1, g2, g3) => some (jsTrim g1 ++ "." ++ jsTrim g2 ++ "." ++ jsTrim g3)
  | none =>
    match looseSearch content.data with
    | some (g1, g2, tag) =>
      some (jsTrim g1 ++ "." ++ jsTrim g2 ++ "." ++
        (match tag with | some t => jsTrim t | none => "0"))
    | none => none

/-! ### LineScanner (`Update.prototype.req`, lines 305-322)

`content.split(/(\r\n)|\r|\n/)` splits on the three separators, BUT the
pattern's capture group is spliced into the result array: after every
segment the array holds the captured group of the separator that followed
it — the string `"\r\n"` when that alternative matched, and `undefined`
(here `none`) when the separator was a bare `\r` or `\n`.
`.splice(0, lines)` then removes and returns the first `lines` ARRAY
ELEMENTS (segments and separator captures alike), not the first `lines`
segments.

The scan loop is
`lines.some(function someline (line) { version = version(line); return !!version; })`.
`version` initially holds the extractor function; after the first
iteration it holds that call's RESULT.  If the first scanned element
yields no version the second iteration therefore invokes `undefined` as a
function and throws a `TypeError`.  (In the real module the crash comes
even earlier: `req` is dispatched as a bare function, so `this.lines`,
`this.version` and the detached `version(line)` call all hit an undefined
`this` under `'use strict'`.  The model below charitably assumes the
method context survives; the clobbered `version` variable still crashes
every scan whose first element yields nothing.)

`exec` on `undefined` coerces it to the string `"undefined"`. -/

/-- The interleaved array produced by `content.split(/(\r\n)|\r|\n/)`:
segments alternate with the separator capture (`some "\r\n"` or `none`). -/
def splitParts : List Char → List Char → List (Option String)
  | [], acc => [some (String.mk acc.reverse)]
  | '\r' :: '\n' :: rest, acc =>
    some (String.mk acc.reverse) :: some "\r\n" :: splitParts rest []
  | '\r' :: rest, acc => some (String.mk acc.reverse) :: none :: splitParts rest []
  | '\n' :: rest, acc => some (String.mk acc.reverse) :: none :: splitParts rest []
  | c :: rest, acc => splitParts rest (c :: acc)

/-- JavaScript string coercion of an array element that may be `undefined`. -/
def jsToString : Option String → String
  | some s => s
  | none => "undefined"

/-- Outcome of the scan loop of `req` once content has been downloaded. -/
inductive ScanResult
  | found (ver content : String)   -- fn(null, version, content)
  | noVersion (content : String)   -- fn(null, undefined, content)
  | typeError                      -- `version = version(line)` clobber: call of undefined
  | funValue (content : String)    -- lines window empty: `version` still the function
deriving Repr, DecidableEq

/-- The body of `downloading` (lines 313-320) after the empty-content
check: take the first `linesCfg` elements of the split array and run the
`some` loop. -/
def reqScan (linesCfg : Nat) (content : String) : ScanResult :=
  match (splitParts content.data []).take linesCfg with
  | [] => .funValue content
  | [x] =>
    match version (jsToString x) with
    | some v => .found v content
    | none => .noVersion content
  | x :: _ :: _ =>
    match version (jsToString x) with
    | some v => .found v content
    | none => .typeError

/-! ### RawDownloader (`Update.prototype.download`, lines 203-210) -/

/-- What the HTTP client hands to the `request.get` callback. -/
inductive HttpReply
  | netError (msg : String)                      -- err truthy
  | response (status : Nat) (body : Option String)  -- body `none` = absent/undefined
deriving Repr, DecidableEq

/-- Result of `download`'s callback chain. -/
inductive DownloadResult
  | callbackErr (msg : String)  -- fn(err) / fn(new Error('Invalid status code'))
  | ok (content : String)       -- fn(null, body.toString('utf8'))
  | thrown                      -- body.toString(...) on an absent body throws
deriving Repr, DecidableEq

/-- `Update.prototype.download`: error passthrough, then the status
check, then `body.toString('utf8')`.  There is NO empty-body check here:
an empty body at status 200 is returned as `""`. -/
def download : HttpReply → DownloadResult
  | .netError m => .callbackErr m
  | .response status body =>
    if status ≠ 200 then .callbackErr "Invalid status code"
    else match body with
      | some s => .ok s
      | none => .thrown

/-- Stage result of `req`'s `downloading` callback before the scan. -/
inductive ReqStage
  | err (msg : String)
  | content (c : String)
  | thrown
deriving Repr, DecidableEq

/-- Lines 309-311 of `req`: propagate a download error, and reject falsy
(empty) content with `'No content received from ' + uri`.  The
empty-content failure lives HERE, in the line scanner, not in
`download`. -/
def reqContentCheck (uri : String) : DownloadResult → ReqStage
  | .callbackErr m => .err m
  | .thrown => .thrown
  | .ok c => if c = "" then .err ("No content received from " ++ uri) else .content c

/-! ### `githubRE` (line 52) and `Update.prototype.raw` (lines 184-194)

`githubRE = /github.com\/([\w\.\-]+)\/([\w\.\-]+)\/blob(\/[\w\.\-]+)\/(.*)/`
(no flags).  The `.` of `github.com` is unescaped, so it matches any
non-LineTerminator character.  Every repetition is over a single class
that excludes `/`, and each run is followed by a literal `/`, so the
greedy deterministic matcher equals the backtracking semantics. -/

/-- After the `github.com/` literal of `githubRE`:
`([\w.-]+)\/([\w.-]+)\/blob(\/[\w.-]+)\/(.*)`. -/
def ghAfterHost (rest : List Char) :
    Option (List Char × List Char × List Char × List Char) :=
  let owner := rest.takeWhile isWordDotDash
  match rest.dropWhile isWordDotDash with
  | '/' :: r2 =>
    if owner.isEmpty then none else
    let repo := r2.takeWhile isWordDotDash
    match r2.dropWhile isWordDotDash with
    | '/' :: 'b' :: 'l' :: 'o' :: 'b' :: '/' :: r4 =>
      if repo.isEmpty then none else
      let branch := r4.takeWhile isWordDotDash
      match r4.dropWhile isWordDotDash with
      | '/' :: r6 =>
        if branch.isEmpty then none else
        some (owner, repo, '/' :: branch, r6.takeWhile notLineTerm)
      | _ => none
    | _ => none
  | _ => none

/-- One attempt of `githubRE` anchored at the head of the list; returns
the four captures (group 3 keeps its leading slash, as in the source). -/
def ghAttempt : List Char → Option (List Char × List Char × List Char × List Char)
  | c0 :: c1 :: c2 :: c3 :: c4 :: c5 :: c6 :: c7 :: c8 :: c9 :: c10 :: rest =>
    if c0 == 'g' && c1 == 'i' && c2 == 't' && c3 == 'h' && c4 == 'u' && c5 == 'b' &&
       notLineTerm c6 && c7 == 'c' && c8 == 'o' && c9 == 'm' && c10 == '/' then
      ghAfterHost rest
    else none
  | _ => none

/-- `githubRE.exec`: leftmost successful attempt. -/
def ghSearch : List Char → Option (List Char × List Char × List Char × List Char)
  | [] => none
  | c :: rest =>
    match ghAttempt (c :: rest) with
    | some r => some r
    | none => ghSearch rest

/-- `Update.prototype.raw`: `chunks = githubRE.exec(uri)`, then
`'https://raw.github.com/' + user + '/' + repo + '/' + branch.substr(1) + '/' + file`.
When `exec` returns `null` the source dereferences `chunks[1]` and
throws; that case is `none` here. -/
def rawOpt (uri : String) : Option String :=
  (ghSearch uri.data).map fun g =>
    "https://raw.github.com/" ++ String.mk g.1 ++ "/" ++ String.mk g.2.1 ++ "/" ++
      String.mk (g.2.2.1.drop 1) ++ "/" ++ String.mk g.2.2.2

/-! ### Fetcher dispatch (`testing`, lines 104-107) -/

/-- The three update handlers. -/
inductive Provider
  | selector | github | req
deriving Repr, DecidableEq

/-- `~latest.indexOf('#')` is truthy exactly when `latest` contains `#`. -/
def containsHash (s : String) : Bool := s.data.contains '#'

/-- `githubRE.test(latest)` (the regex has no `g` flag, so `test` is
stateless). -/
def githubTest (s : String) : Bool := (ghSearch s.data).isSome

/-- Lines 105-107: each `if` OVERWRITES `provider`, so the GitHub test
takes precedence over the `#` test, and `req` is the fallback. -/
def selectProvider (latest : String) : Provider :=
  let p0 : Option Provider := none
  let p1 := if containsHash latest then some Provider.selector else p0
  let p2 := if githubTest latest then some Provider.github else p1
  match p2 with
  | some p => p
  | none => .req

/-! ### BundleUpdateOrchestrator (`Update.prototype.execute`, lines 89-175)

The network, the GitHub API and the file system are oracle inputs: a
`KeyOracle` records, for one bundle key, what the selected provider's
callback would deliver, what `self.download` would deliver, and whether
each of the two `fs.writeFileSync` calls throws.

`JSON.parse(package.source)` / `JSON.stringify(code, null, 2)` are
abstracted by keeping `package.source` in its parsed form: the list of
`(bundle key, version)` pairs that `done` reads and rewrites.  The claims
under verification are insensitive to the concrete JSON syntax.

`async.forEach` runs all iterators in parallel and calls the final
callback with the FIRST error (a single `Error` object, never an array);
iterators for other keys keep running.  The model processes keys in array
order, which realizes one completion order; the verified claims do not
depend on the order. -/

/-- One manifest bundle entry (`BundleEntry` plus `meta.location`). -/
structure Bundle where
  latest : Option String
  version : String
  content : Option String
  metaLocation : String
  download : Bool
deriving Repr, DecidableEq

/-- Data handed to `fs.writeFileSync`. -/
inductive FileData
  | manifestDoc (entries : List (String × String))  -- the re-serialized manifest
  | rawText (s : String)                            -- the new bundle content
deriving Repr, DecidableEq

/-- What the selected provider's callback (`test`, line 109) receives. -/
inductive ProviderReply
  | silent                                                       -- callback never invoked
  | callback (err : Option String) (ver : Option String) (content : Option String)
deriving Repr, DecidableEq

/-- Oracle inputs for one bundle key. -/
structure KeyOracle where
  reply : ProviderReply
  downloadResult : Except String String  -- what `self.download(data, done)` delivers
  manifestWriteErr : Option String       -- `fs.writeFileSync(package.location, source)`
  fileWriteErr : Option String           -- `fs.writeFileSync(bundle.meta.location, content)`
deriving Repr

/-- Terminal state of one bundle key. -/
inductive KeyOutcome
  | skipped                      -- no `latest` field: cb() at line 102
  | pending                      -- cb never called (the selector provider never calls back)
  | failed (msg : String)        -- cb(err)
  | unchanged                    -- version equal: cb() at line 112
  | updated (writeErr : Option String)  -- `done` ran: cb(err) with the write exception, if any
  | crashed                      -- `self.raw` on a non-matching URL threw
deriving Repr, DecidableEq

/-- The error value a key passes to its `async.forEach` callback. -/
def outcomeErr : KeyOutcome → Option String
  | .failed m => some m
  | .updated (some m) => some m
  | _ => none

/-- `code.bundle[key].version = version` on the parsed manifest. -/
def setVersion (entries : List (String × String)) (key v : String) :
    List (String × String) :=
  entries.map fun kv => if kv.fst = key then (kv.fst, v) else kv

/-- Result of processing one key: its terminal state, the (possibly
mutated) in-memory bundle entry, the (possibly rewritten)
`package.source`, and the successful `writeFileSync` calls in order. -/
structure KeyResult where
  outcome : KeyOutcome
  bundle : Bundle
  sourceEntries : List (String × String)
  writes : List (String × FileData)
deriving Repr

/-- `done` (lines 127-156): mutate the parsed manifest, the in-memory
entry and `package.source` FIRST, then attempt the two synchronous
writes; a throw from the first write skips the second; the caught
exception is passed to cb; nothing is rolled back. -/
def runDone (loc key : String) (b : Bundle) (src : List (String × String))
    (v content : String) (o : KeyOracle) : KeyResult :=
  let src' := setVersion src key v
  let b' := { b with version := v, content := some content }
  match o.manifestWriteErr with
  | some e => ⟨.updated (some e), b', src', []⟩
  | none =>
    match o.fileWriteErr with
    | some e => ⟨.updated (some e), b', src', [(loc, .manifestDoc src')]⟩
    | none =>
      ⟨.updated none, b', src',
        [(loc, .manifestDoc src'), (b.metaLocation, .rawText content)]⟩

/-- Lines 158-166: use the provider's content if truthy, else download —
from `self.raw(latest)` when `bundle.download` or the provider was the
GitHub one (crashing when `githubRE` does not match), else from `latest`
directly.  `done` performs no empty-content check. -/
def processDownload (loc key : String) (b : Bundle) (src : List (String × String))
    (latest : String) (prov : Provider) (o : KeyOracle) (v : String) : KeyResult :=
  let rawNeeded := b.download || prov == Provider.github
  if rawNeeded && !(ghSearch latest.data).isSome then ⟨.crashed, b, src, []⟩
  else
    match o.downloadResult with
    | .error e => ⟨.failed e, b, src, []⟩
    | .ok c => runDone loc key b src v c o

/-- The `testing` iterator (lines 97-167) for one key.  The `selector`
provider never invokes its callback (lines 219-230), so a key dispatched
to it stays pending.  A falsy (`""` or missing) version hits the
`'unable to find and parse'` branch; an equal version returns untouched;
otherwise `done` runs with either the provider's content or a download. -/
def processKey (loc : String) (src : List (String × String)) (key : String)
    (b : Bundle) (o : KeyOracle) : KeyResult :=
  match b.latest with
  | none => ⟨.skipped, b, src, []⟩
  | some latest =>
    match selectProvider latest with
    | .selector => ⟨.pending, b, src, []⟩
    | prov =>
      match o.reply with
      | .silent => ⟨.pending, b, src, []⟩
      | .callback (some e) _ _ => ⟨.failed e, b, src, []⟩
      | .callback none ver content =>
        match ver with
        | none => ⟨.failed ("unable to find and parse the version for " ++ key), b, src, []⟩
        | some v =>
          if v = "" then
            ⟨.failed ("unable to find and parse the version for " ++ key), b, src, []⟩
          else if v = b.version then ⟨.unchanged, b, src, []⟩
          else
            match content with
            | some c =>
              if c = "" then processDownload loc key b src latest prov o v
              else runDone loc key b src v c o
            | none => processDownload loc key b src latest prov o v

/-- The `square.package` collaborator as `execute` sees it. -/
structure PackageState where
  bundleEntries : List (String × Bundle)  -- `package.bundle` (iteration order of Object.keys)
  path : Option String                    -- `package.path`
  sourceEntries : List (String × String)  -- `package.source`, parsed form
  location : String                       -- `package.location`
deriving Repr

/-- Accumulator for the fold over the bundle keys. -/
structure RunState where
  bundles : List (String × Bundle)
  sourceEntries : List (String × String)
  writes : List (String × FileData)
  outcomes : List (String × KeyOutcome)
deriving Repr

/-- Process one key against the current shared `package.source`. -/
def stepKey (loc : String) (o : String → KeyOracle) (st : RunState)
    (kb : String × Bundle) : RunState :=
  let r := processKey loc st.sourceEntries kb.1 kb.2 (o kb.1)
  { bundles := st.bundles ++ [(kb.1, r.bundle)]
    sourceEntries := r.sourceEntries
    writes := st.writes ++ r.writes
    outcomes := st.outcomes ++ [(kb.1, r.outcome)] }

/-- The single error `async.forEach` hands to `finished`: the first
per-key error, if any. -/
def firstErr : List (String × KeyOutcome) → Option String
  | [] => none
  | (_, o) :: rest =>
    match outcomeErr o with
    | some e => some e
    | none => firstErr rest

/-- A key whose callback is never invoked keeps `async.forEach` waiting. -/
def hasPending (outs : List (String × KeyOutcome)) : Bool :=
  outs.any fun ko => ko.2 == KeyOutcome.pending

/-- The value `finished` receives: `null` or a single `Error` — with
`async.forEach`, never an array. -/
inductive JsVal
  | jsNull
  | jsError (msg : String)
  | jsArray (msgs : List String)
deriving Repr, DecidableEq

/-- JavaScript truthiness of `err.forEach`: only arrays have it. -/
def hasForEach : JsVal → Bool
  | .jsArray _ => true
  | _ => false

/-- `finished` (lines 168-174): `if (err && err.forEach) err.forEach(... error ...)`.
A single `Error` has no `forEach`, so the guard fails and nothing is
logged.  (Were it an array, `self.logger` — undefined on `Update` — would
throw anyway.)  `finished` never references `execute`'s parameter `fn`. -/
def finishedLogs (err : JsVal) : List String :=
  if hasForEach err then
    match err with
    | .jsArray l => l
    | _ => []
  else []

/-- Observable result of one `execute` run. -/
structure RunResult where
  bundles : List (String × Bundle)
  sourceEntries : List (String × String)
  writes : List (String × FileData)
  outcomes : List (String × KeyOutcome)
  finishedCalled : Bool
  finalErr : JsVal
  logged : List String
  fnCalls : Nat   -- number of invocations of the completion callback `fn`
deriving Repr

/-- `Update.prototype.execute` (lines 89-175).  No `package.path` means an
early `return` (line 95) before any key is touched.  Otherwise every key
is processed (a failure of one key never stops the others), `finished`
fires at the first error or once all non-pending keys are done, and logs
via `finishedLogs`.  NOTHING in the function body ever invokes the
completion parameter `fn`, hence `fnCalls` is 0 on every path. -/
def execute (pkg : PackageState) (o : String → KeyOracle) : RunResult :=
  match pkg.path with
  | none =>
    ⟨pkg.bundleEntries, pkg.sourceEntries, [], [], false, .jsNull, [], 0⟩
  | some _ =>
    let final := pkg.bundleEntries.foldl (stepKey pkg.location o)
      ⟨[], pkg.sourceEntries, [], []⟩
    let e := firstErr final.outcomes
    let called := e.isSome || !(hasPending final.outcomes)
    let errVal := match e with | some m => JsVal.jsError m | none => JsVal.jsNull
    let logged := if called then finishedLogs errVal else []
    ⟨final.bundles, final.sourceEntries, final.writes, final.outcomes,
      called, errVal, logged, 0⟩

/-- Is a `DownloadResult` one of the error callbacks of `download`? -/
def isCallbackErr : DownloadResult → Bool
  | .callbackErr _ => true
  | _ => false

/-! ### Concrete instances used by the closed theorems -/

/-- Twelve lines; the only version-shaped text sits on line 12. -/
def content12 : String :=
  "alpha\nbravo\ncharlie\ndelta\necho\nfoxtrot\ngolf\nhotel\nindia\njuliet\nkilo\nv1.2.3"

/-- A bundle whose fetch will fail (oracled network error). -/
def bundleA : Bundle :=
  ⟨some "http://cdn.example.com/a.js", "1.0.0", none, "/proj/vendor/a.js", false⟩

/-- A bundle whose fetch will succeed with a newer version. -/
def bundleB : Bundle :=
  ⟨some "http://cdn.example.com/b.js", "1.0.0", none, "/proj/vendor/b.js", false⟩

/-- A two-bundle package, loaded from disk. -/
def pkgTwo : PackageState :=
  ⟨[("a", bundleA), ("b", bundleB)], some "/proj",
    [("a", "1.0.0"), ("b", "1.0.0")], "/proj/square.json"⟩

/-- Oracle: key `a` fails with a network error, key `b` succeeds with a
new version and fresh content; all writes succeed. -/
def oracleTwo : String → KeyOracle := fun k =>
  if k = "a" then ⟨.callback (some "getaddrinfo ENOTFOUND") none none, .error "unused", none, none⟩
  else ⟨.callback none (some "2.0.0") (some "var b = 2;"), .error "unused", none, none⟩

/-! ## Shared helper lemmas -/

theorem takeWhile_all_append {α : Type} (p : α → Bool) (l₁ l₂ : List α)
    (h : ∀ c ∈ l₁, p c = true) :
    (l₁ ++ l₂).takeWhile p = l₁ ++ l₂.takeWhile p := by
  induction l₁ with
  | nil => simp
  | cons a t ih =>
    have ha : p a = true := h a (by simp)
    simp [List.takeWhile_cons, ha, ih (fun c hc => h c (by simp [hc]))]

theorem dropWhile_all_append {α : Type} (p : α → Bool) (l₁ l₂ : List α)
    (h : ∀ c ∈ l₁, p c = true) :
    (l₁ ++ l₂).dropWhile p = l₂.dropWhile p := by
  induction l₁ with
  | nil => simp
  | cons a t ih =>
    have ha : p a = true := h a (by simp)
    simp [List.dropWhile_cons, ha, ih (fun c hc => h c (by simp [hc]))]

theorem takeWhile_run {α : Type} (p : α → Bool) (l₁ : List α) (x : α) (l₂ : List α)
    (h : ∀ c ∈ l₁, p c = true) (hx : p x = false) :
    (l₁ ++ x :: l₂).takeWhile p = l₁ := by
  rw [takeWhile_all_append p l₁ _ h]
  simp [List.takeWhile_cons, hx]

theorem dropWhile_run {α : Type} (p : α → Bool) (l₁ : List α) (x : α) (l₂ : List α)
    (h : ∀ c ∈ l₁, p c = true) (hx : p x = false) :
    (l₁ ++ x :: l₂).dropWhile p = x :: l₂ := by
  rw [dropWhile_all_append p l₁ _ h]
  simp [List.dropWhile_cons, hx]

theorem takeWhile_eq_self_of_all {α : Type} (p : α → Bool) (l : List α)
    (h : ∀ c ∈ l, p c = true) : l.takeWhile p = l := by
  induction l with
  | nil => rfl
  | cons a t ih =>
    have ha : p a = true := h a (by simp)
    simp [List.takeWhile_cons, ha, ih (fun c hc => h c (by simp [hc]))]

theorem dropWhile_cons_false {α : Type} (p : α → Bool) (a : α) (l : List α)
    (h : p a = false) : (a :: l).dropWhile p = a :: l := by
  simp [List.dropWhile_cons, h]

theorem dropWhile_cons_true {α : Type} (p : α → Bool) (a : α) (l : List α)
    (h : p a = true) : (a :: l).dropWhile p = l.dropWhile p := by
  simp [List.dropWhile_cons, h]

theorem not_space_of_digit {c : Char} (h : isDigitC c = true) : isJsSpace c = false := by
  have hn : 48 ≤ c.toNat ∧ c.toNat ≤ 57 := by
    simpa [isDigitC] using h
  rw [Bool.eq_false_iff]
  intro hcon
  simp only [isJsSpace, Bool.or_eq_true, Bool.and_eq_true, decide_eq_true_eq] at hcon
  omega

theorem not_veq_of_digit {c : Char} (h : isDigitC c = true) : isVEq c = false := by
  have hn : 48 ≤ c.toNat ∧ c.toNat ≤ 57 := by
    simpa [isDigitC] using h
  rw [Bool.eq_false_iff]
  intro hcon
  simp only [isVEq, Bool.or_eq_true, beq_iff_eq] at hcon
  rcases hcon with rfl | rfl <;> exact absurd hn (by decide)

/-! ## C1 — LineScanner window and scan loop -/

/-- C1: LineScanner is claimed to split content into lines, scan exactly
the first `lines` lines through VersionExtractor, fail for a version on
line 12 with `lines = 10` and succeed with `lines = 15`.  The code
instead (a) splices the split regex's capture group into the array, so
the window counts separators as elements — the 12 lines of `content12`
become 23 array elements — and (b) reassigns the `version` variable to
each call's result, so once the first scanned element yields nothing the
next iteration invokes `undefined` as a function and throws a
`TypeError`.  On content whose version sits on line 12 the scan crashes
under BOTH `lines = 10` and `lines = 15`, even though the version string
is present and extractable. -/
theorem c1_linescanner_crash :
    reqScan 10 content12 = ScanResult.typeError ∧
    reqScan 15 content12 = ScanResult.typeError ∧
    (splitParts content12.data []).length = 23 ∧
    version "v1.2.3" = some "1.2.3" := by
  refine ⟨rfl, rfl, rfl, rfl⟩

/-! ## C3 — loose-pattern fallback result shape -/

/-- C3 counterexample: the loose pattern has a third capture group (the
tag), so on `"v1.2beta"` — where the strict pattern fails — the extractor
returns `"1.2.beta"`, whose patch component is the captured tag, not
`0`. -/
theorem c3_counterexample :
    version "v1.2beta" = some "1.2.beta" ∧
    strictSearch "v1.2beta".data = none ∧
    looseSearch "v1.2beta".data = some ("1", "2", some "beta") ∧
    ("1.2.beta" : String) ≠ "1.2.0" := by
  refine ⟨rfl, rfl, rfl, by decide⟩

/-- C3 amended: when the strict pattern fails and the loose pattern
matches, the result is `major.minor.patch` where the patch is `0`
exactly when the loose match's optional third (tag) group did not
participate; a participating tag becomes the patch component. -/
theorem c3_loose_patch_component (text g1 g2 : String) (tag : Option String)
    (hstrict : strictSearch text.data = none)
    (hloose : looseSearch text.data = some (g1, g2, tag)) :
    version text = some (jsTrim g1 ++ "." ++ jsTrim g2 ++ "." ++
      (match tag with | some t => jsTrim t | none => "0")) := by
  cases tag with
  | none => simp [version, hstrict, hloose]
  | some t => simp [version, hstrict, hloose]

/-- C3 witness: `"v1.2"` has no strict match, the loose match has no tag,
and the extractor yields `"1.2.0"`. -/
theorem c3_witness :
    strictSearch "v1.2".data = none ∧
    looseSearch "v1.2".data = some ("1", "2", none) ∧
    version "v1.2" = some "1.2.0" :=
  ⟨rfl, rfl, c3_loose_patch_component "v1.2" "1" "2" none rfl rfl⟩

/-! ## C4 — fetcher dispatch -/

/-- C4 counterexample: the claim says a descriptor that both contains `#`
and matches the GitHub blob shape selects the CSS-selector fetcher.  The
second `if` of the dispatch overwrites `provider`, so such a descriptor
selects the GitHub handler instead. -/
theorem c4_counterexample :
    selectProvider "https://github.com/a/b/blob/c/d#sel" = Provider.github ∧
    containsHash "https://github.com/a/b/blob/c/d#sel" = true ∧
    githubTest "https://github.com/a/b/blob/c/d#sel" = true ∧
    Provider.github ≠ Provider.selector := by
  refine ⟨rfl, rfl, rfl, by decide⟩

/-- C4 amended: the GitHub-shape test runs last and overwrites, so the
priority is GitHub shape, then `#`, then the line-scanning fallback. -/
theorem c4_dispatch_priority (s : String) :
    selectProvider s =
      if githubTest s then Provider.github
      else if containsHash s then Provider.selector
      else Provider.req := by
  unfold selectProvider
  by_cases hg : githubTest s <;> by_cases hh : containsHash s <;> simp [hg, hh]

/-! ## C5 — strict-pattern extraction -/

/-- C5 counterexample: `"9.8.7 v1.2.3"` contains the substring
`"v1.2.3"`, yet the extractor returns `"9.8.7"` — the leftmost strict
match needs no `v` and wins. -/
theorem c5_counterexample :
    version "9.8.7 v1.2.3" = some "9.8.7" ∧
    ("9.8.7" : String) ≠ "1.2.3" := by
  refine ⟨rfl, by decide⟩

/-- The preamble `\s*[v=]*\s*` only ever consumes whitespace and `v`/`=`
characters: the input splits as a consumed prefix of such characters
followed by the remainder. -/
theorem skipPreamble_decomp (cs : List Char) :
    ∃ d, cs = d ++ skipPreamble cs ∧ ∀ c ∈ d, isJsSpace c = true ∨ isVEq c = true := by
  refine ⟨cs.takeWhile isJsSpace ++ ((cs.dropWhile isJsSpace).takeWhile isVEq ++
    ((cs.dropWhile isJsSpace).dropWhile isVEq).takeWhile isJsSpace), ?_, ?_⟩
  · unfold skipPreamble
    conv_lhs => rw [← List.takeWhile_append_dropWhile isJsSpace cs]
    rw [List.append_assoc]
    congr 1
    conv_lhs => rw [← List.takeWhile_append_dropWhile isVEq (cs.dropWhile isJsSpace)]
    rw [List.append_assoc]
    congr 1
    conv_lhs =>
      rw [← List.takeWhile_append_dropWhile isJsSpace
        ((cs.dropWhile isJsSpace).dropWhile isVEq)]
  · intro c hc
    rcases List.mem_append.mp hc with h1 | h2
    · exact Or.inl (List.mem_takeWhile_imp h1)
    · rcases List.mem_append.mp h2 with h3 | h4
      · exact Or.inr (List.mem_takeWhile_imp h3)
      · exact Or.inl (List.mem_takeWhile_imp h4)

/-- `([0-9]+)\.([0-9]+)\.([0-9]+)` anchored exactly at the digit runs
`X`, `Y`, `Z` captures exactly them (the suffix must not start with a
digit, or `Z` would be extended). -/
theorem strictCore_exact (X Y Z suf : List Char)
    (hX : X ≠ []) (hXd : ∀ c ∈ X, isDigitC c = true)
    (hY : Y ≠ []) (hYd : ∀ c ∈ Y, isDigitC c = true)
    (hZ : Z ≠ []) (hZd : ∀ c ∈ Z, isDigitC c = true)
    (hsuf : suf.takeWhile isDigitC = []) :
    strictCore (X ++ '.' :: (Y ++ '.' :: (Z ++ suf))) =
      some (String.mk X, String.mk Y, String.mk Z) := by
  have hdot : isDigitC '.' = false := by decide
  have e1 : (X ++ '.' :: (Y ++ '.' :: (Z ++ suf))).takeWhile isDigitC = X :=
    takeWhile_run _ _ _ _ hXd hdot
  have e2 : (X ++ '.' :: (Y ++ '.' :: (Z ++ suf))).dropWhile isDigitC =
      '.' :: (Y ++ '.' :: (Z ++ suf)) :=
    dropWhile_run _ _ _ _ hXd hdot
  have e3 : (Y ++ '.' :: (Z ++ suf)).takeWhile isDigitC = Y :=
    takeWhile_run _ _ _ _ hYd hdot
  have e4 : (Y ++ '.' :: (Z ++ suf)).dropWhile isDigitC = '.' :: (Z ++ suf) :=
    dropWhile_run _ _ _ _ hYd hdot
  have e5 : (Z ++ suf).takeWhile isDigitC = Z := by
    rw [takeWhile_all_append _ _ _ hZd, hsuf, List.append_nil]
  have hXe : X.isEmpty = false := by simpa [List.isEmpty_iff] using hX
  have hYe : Y.isEmpty = false := by simpa [List.isEmpty_iff] using hY
  have hZe : Z.isEmpty = false := by simpa [List.isEmpty_iff] using hZ
  simp only [strictCore, e1, e2, e3, e4, e5, hXe, hYe, hZe]
  rfl

/-- Any strict-pattern attempt on `pre ++ "vX.Y.Z" ++ suf` with a
digit-free `pre` either fails or captures exactly `(X, Y, Z)`: the
preamble can only consume whitespace/`v`/`=` characters, so the first
capture can only start at `X`. -/
theorem strictAttempt_shape (pre X Y Z suf : List Char)
    (hpre : ∀ c ∈ pre, isDigitC c = false)
    (hX : X ≠ []) (hXd : ∀ c ∈ X, isDigitC c = true)
    (hY : Y ≠ []) (hYd : ∀ c ∈ Y, isDigitC c = true)
    (hZ : Z ≠ []) (hZd : ∀ c ∈ Z, isDigitC c = true)
    (hsuf : suf.takeWhile isDigitC = []) :
    strictAttempt (pre ++ 'v' :: (X ++ '.' :: (Y ++ '.' :: (Z ++ suf)))) = none ∨
    strictAttempt (pre ++ 'v' :: (X ++ '.' :: (Y ++ '.' :: (Z ++ suf)))) =
      some (String.mk X, String.mk Y, String.mk Z) := by
  set t := pre ++ 'v' :: (X ++ '.' :: (Y ++ '.' :: (Z ++ suf))) with ht
  obtain ⟨d, hd, hdc⟩ := skipPreamble_decomp t
  have hattempt : strictAttempt t = strictCore (skipPreamble t) := rfl
  cases hs : skipPreamble t with
  | nil =>
    left
    rw [hattempt, hs]
    rfl
  | cons c s' =>
    by_cases hc : isDigitC c = true
    · right
      -- the consumed prefix has no digits and ends exactly before `X`
      have hdnod : ∀ x ∈ d, isDigitC x = false := by
        intro x hx
        rcases hdc x hx with hsp | hv
        · rw [Bool.eq_false_iff]
          intro hdig
          rw [not_space_of_digit hdig] at hsp
          exact Bool.false_ne_true hsp
        · rw [Bool.eq_false_iff]
          intro hdig
          rw [not_veq_of_digit hdig] at hv
          exact Bool.false_ne_true hv
      have hPnod : ∀ x ∈ pre ++ ['v'], isDigitC x = false := by
        intro x hx
        rcases List.mem_append.mp hx with h1 | h2
        · exact hpre x h1
        · rcases List.mem_singleton.mp h2 with rfl
          decide
      have heq : d ++ skipPreamble t =
          (pre ++ ['v']) ++ (X ++ '.' :: (Y ++ '.' :: (Z ++ suf))) := by
        rw [← hd, ht]
        simp
      have hskipR : skipPreamble t = X ++ '.' :: (Y ++ '.' :: (Z ++ suf)) := by
        rcases List.append_eq_append_iff.mp heq with ⟨a, ha1, ha2⟩ | ⟨a, ha1, ha2⟩
        · -- pre ++ ['v'] = d ++ a, skip = a ++ R
          cases a with
          | nil => simpa using ha2
          | cons x xs =>
            exfalso
            have hxmem : x ∈ pre ++ ['v'] := by rw [ha1]; simp
            have : isDigitC x = false := hPnod x hxmem
            have hx_eq_c : x = c := by
              have := ha2
              rw [hs] at this
              exact (List.cons.injEq _ _ _ _ ▸ this).1.symm
            rw [hx_eq_c] at this
            rw [this] at hc
            exact Bool.false_ne_true hc
        · -- d = (pre ++ ['v']) ++ a, R = a ++ skip
          cases a with
          | nil => simpa using ha2.symm
          | cons x xs =>
            exfalso
            have hxmem : x ∈ d := by rw [ha1]; simp
            have hxnd : isDigitC x = false := hdnod x hxmem
            obtain ⟨xh, Xt, rfl⟩ : ∃ xh Xt, X = xh :: Xt := by
              cases X with
              | nil => exact absurd rfl hX
              | cons xh Xt => exact ⟨xh, Xt, rfl⟩
            have hxd : isDigitC x = true := by
              have : xh = x := by
                have := ha2
                simp only [List.cons_append] at this
                exact (List.cons.injEq _ _ _ _ ▸ this).1
              rw [← this]
              exact hXd xh (by simp)
            rw [hxnd] at hxd
            exact Bool.false_ne_true hxd
      rw [hattempt, hskipR]
      exact strictCore_exact X Y Z suf hX hXd hY hYd hZ hZd hsuf
    · left
      rw [hattempt, hs]
      have hcf : isDigitC c = false := by
        rw [Bool.eq_false_iff]
        exact hc
      simp only [strictCore, List.takeWhile_cons, hcf]
      rfl

theorem strictSearch_cons (c : Char) (rest : List Char) :
    strictSearch (c :: rest) = match strictAttempt (c :: rest) with
      | some r => some r
      | none => strictSearch rest := rfl

/-- The leftmost strict match of `pre ++ "vX.Y.Z" ++ suf` (digit-free
`pre`, digit runs `X Y Z`, suffix not starting with a digit) captures
exactly `(X, Y, Z)`. -/
theorem strictSearch_shape (X Y Z suf : List Char)
    (hX : X ≠ []) (hXd : ∀ c ∈ X, isDigitC c = true)
    (hY : Y ≠ []) (hYd : ∀ c ∈ Y, isDigitC c = true)
    (hZ : Z ≠ []) (hZd : ∀ c ∈ Z, isDigitC c = true)
    (hsuf : suf.takeWhile isDigitC = []) :
    ∀ pre : List Char, (∀ c ∈ pre, isDigitC c = false) →
      strictSearch (pre ++ 'v' :: (X ++ '.' :: (Y ++ '.' :: (Z ++ suf)))) =
        some (String.mk X, String.mk Y, String.mk Z) := by
  intro pre
  induction pre with
  | nil =>
    intro _
    obtain ⟨xh, Xt, rfl⟩ : ∃ xh Xt, X = xh :: Xt := by
      cases X with
      | nil => exact absurd rfl hX
      | cons xh Xt => exact ⟨xh, Xt, rfl⟩
    have hxh : isDigitC xh = true := hXd xh (by simp)
    have hskip : skipPreamble ('v' :: (xh :: (Xt ++ '.' :: (Y ++ '.' :: (Z ++ suf))))) =
        xh :: (Xt ++ '.' :: (Y ++ '.' :: (Z ++ suf))) := by
      unfold skipPreamble
      rw [dropWhile_cons_false isJsSpace 'v' _ (by decide),
        dropWhile_cons_true isVEq 'v' _ (by decide),
        dropWhile_cons_false isVEq xh _ (not_veq_of_digit hxh),
        dropWhile_cons_false isJsSpace xh _ (not_space_of_digit hxh)]
    have hatt : strictAttempt ('v' :: (xh :: (Xt ++ '.' :: (Y ++ '.' :: (Z ++ suf))))) =
        some (String.mk (xh :: Xt), String.mk Y, String.mk Z) := by
      unfold strictAttempt
      rw [hskip]
      have := strictCore_exact (xh :: Xt) Y Z suf hX hXd hY hYd hZ hZd hsuf
      simpa using this
    rw [List.nil_append, List.cons_append, strictSearch_cons, hatt]
  | cons c pre' ih =>
    intro hpre
    have hpre' : ∀ x ∈ pre', isDigitC x = false := fun x hx => hpre x (by simp [hx])
    rcases strictAttempt_shape (c :: pre') X Y Z suf hpre hX hXd hY hYd hZ hZd hsuf with
      hnone | hsome
    · rw [List.cons_append] at hnone ⊢
      rw [strictSearch_cons, hnone]
      exact ih hpre'
    · rw [List.cons_append] at hsome ⊢
      rw [strictSearch_cons, hsome]

theorem jsTrim_of_digits (l : List Char) (h : ∀ c ∈ l, isDigitC c = true) :
    jsTrim (String.mk l) = String.mk l := by
  unfold jsTrim
  have hfront : ∀ (m : List Char), (∀ c ∈ m, isDigitC c = true) →
      m.dropWhile isJsSpace = m := by
    intro m hm
    cases m with
    | nil => rfl
    | cons a t => exact dropWhile_cons_false _ _ _ (not_space_of_digit (hm a (by simp)))
  rw [show (String.mk l).data = l from rfl]
  rw [hfront l h]
  rw [hfront l.reverse (fun c hc => h c (List.mem_reverse.mp hc))]
  rw [List.reverse_reverse]

/-- C5 amended: for text of the form `pre ++ "vX.Y.Z" ++ suf` where `X`,
`Y`, `Z` are digit runs, `pre` contains no digit (so no strict match can
start earlier) and `suf` does not begin with a digit (so `Z` is not
extended), the extractor returns exactly `"X.Y.Z"`.  In general only the
leftmost match is used, so a version-shaped substring earlier in the text
takes precedence (see the counterexample). -/
theorem c5_first_match_version (pre X Y Z suf : List Char)
    (hpre : ∀ c ∈ pre, isDigitC c = false)
    (hX : X ≠ []) (hXd : ∀ c ∈ X, isDigitC c = true)
    (hY : Y ≠ []) (hYd : ∀ c ∈ Y, isDigitC c = true)
    (hZ : Z ≠ []) (hZd : ∀ c ∈ Z, isDigitC c = true)
    (hsuf : suf.takeWhile isDigitC = []) :
    version (String.mk (pre ++ 'v' :: (X ++ '.' :: (Y ++ '.' :: (Z ++ suf))))) =
      some (String.mk X ++ "." ++ String.mk Y ++ "." ++ String.mk Z) := by
  unfold version
  rw [show (String.mk (pre ++ 'v' :: (X ++ '.' :: (Y ++ '.' :: (Z ++ suf))))).data
      = pre ++ 'v' :: (X ++ '.' :: (Y ++ '.' :: (Z ++ suf))) from rfl]
  rw [strictSearch_shape X Y Z suf hX hXd hY hYd hZ hZd hsuf pre hpre]
  show some (jsTrim (String.mk X) ++ "." ++ jsTrim (String.mk Y) ++ "." ++
    jsTrim (String.mk Z)) = _
  rw [jsTrim_of_digits X hXd, jsTrim_of_digits Y hYd, jsTrim_of_digits Z hZd]

/-- C5 witness: `"see v10.42.7 shipped"` yields `"10.42.7"`. -/
theorem c5_witness :
    version (String.mk ("see ".data ++ 'v' :: ("10".data ++ '.' ::
        ("42".data ++ '.' :: ("7".data ++ " shipped".data))))) =
      some (String.mk "10".data ++ "." ++ String.mk "42".data ++ "." ++ String.mk "7".data) :=
  c5_first_match_version "see ".data "10".data "42".data "7".data " shipped".data
    (by decide) (by decide) (by decide) (by decide) (by decide) (by decide) (by decide)
    (by decide)

/-! ## C6 — downloader error contract -/

/-- C6 counterexample: an empty body at status 200 is RETURNED by
`download` as `""`, not rejected; the empty-content failure is raised
later, by the line scanner's callback. -/
theorem c6_counterexample :
    download (HttpReply.response 200 (some "")) = DownloadResult.ok "" ∧
    isCallbackErr (DownloadResult.ok "") = false := by
  refine ⟨rfl, rfl⟩

/-- C6 amended: `download` fails via its callback exactly when the
network call errors or the status is not 200; an empty body at status
200 is returned as `""`; the `'No content received'` rejection of empty
content happens in the line scanner (`req`), after `download`
returns. -/
theorem c6_download_errors :
    (∀ h : HttpReply, isCallbackErr (download h) =
      (match h with
       | .netError _ => true
       | .response status _ => decide (status ≠ 200))) ∧
    download (HttpReply.response 200 (some "")) = DownloadResult.ok "" ∧
    (∀ uri : String,
      reqContentCheck uri (DownloadResult.ok "") =
        ReqStage.err ("No content received from " ++ uri)) := by
  refine ⟨?_, rfl, fun uri => rfl⟩
  intro h
  rcases h with m | ⟨status, body⟩
  · rfl
  · by_cases hst : status = 200
    · subst hst
      cases body <;> simp [download, isCallbackErr]
    · cases body <;> simp [download, isCallbackErr, hst]

/-! ## C7 — GitHub raw-URL transform -/

theorem ghSearch_cons (c : Char) (rest : List Char) :
    ghSearch (c :: rest) = match ghAttempt (c :: rest) with
      | some r => some r
      | none => ghSearch rest := rfl

theorem ghAttempt_head_ne (c : Char) (rest : List Char) (h : c ≠ 'g') :
    ghAttempt (c :: rest) = none := by
  rcases rest with _ | ⟨a1, _ | ⟨a2, _ | ⟨a3, _ | ⟨a4, _ | ⟨a5, _ | ⟨a6, _ | ⟨a7,
    _ | ⟨a8, _ | ⟨a9, _ | ⟨a10, rest⟩⟩⟩⟩⟩⟩⟩⟩⟩⟩ <;> simp [ghAttempt, h]

/-- The body of `githubRE` after `github.com/` captures exactly
`(owner, repo, /branch, path)` on a well-shaped blob tail. -/
theorem ghAfterHost_exact (owner repo branch path : List Char)
    (ho1 : owner ≠ []) (ho2 : ∀ c ∈ owner, isWordDotDash c = true)
    (hr1 : repo ≠ []) (hr2 : ∀ c ∈ repo, isWordDotDash c = true)
    (hb1 : branch ≠ []) (hb2 : ∀ c ∈ branch, isWordDotDash c = true)
    (hp : ∀ c ∈ path, notLineTerm c = true) :
    ghAfterHost (owner ++ '/' :: (repo ++ '/' :: 'b' :: 'l' :: 'o' :: 'b' :: '/' ::
        (branch ++ '/' :: path))) = some (owner, repo, '/' :: branch, path) := by
  have hslash : isWordDotDash '/' = false := by decide
  have e1 := takeWhile_run isWordDotDash owner '/'
    (repo ++ '/' :: 'b' :: 'l' :: 'o' :: 'b' :: '/' :: (branch ++ '/' :: path)) ho2 hslash
  have e2 := dropWhile_run isWordDotDash owner '/'
    (repo ++ '/' :: 'b' :: 'l' :: 'o' :: 'b' :: '/' :: (branch ++ '/' :: path)) ho2 hslash
  have e3 := takeWhile_run isWordDotDash repo '/'
    ('b' :: 'l' :: 'o' :: 'b' :: '/' :: (branch ++ '/' :: path)) hr2 hslash
  have e4 := dropWhile_run isWordDotDash repo '/'
    ('b' :: 'l' :: 'o' :: 'b' :: '/' :: (branch ++ '/' :: path)) hr2 hslash
  have e5 := takeWhile_run isWordDotDash branch '/' path hb2 hslash
  have e6 := dropWhile_run isWordDotDash branch '/' path hb2 hslash
  have e7 := takeWhile_eq_self_of_all notLineTerm path hp
  have ho1e : owner.isEmpty = false := by simpa [List.isEmpty_iff] using ho1
  have hr1e : repo.isEmpty = false := by simpa [List.isEmpty_iff] using hr1
  have hb1e : branch.isEmpty = false := by simpa [List.isEmpty_iff] using hb1
  simp only [ghAfterHost, e1, e2, e3, e4, e5, e6, e7, ho1e, hr1e, hb1e]
  rfl

/-- `githubRE.exec` on an `https` blob URL finds the unique match at the
host position: the scheme prefix offers no `g` to start a match. -/
theorem ghSearch_blob (owner repo branch path : List Char)
    (ho1 : owner ≠ []) (ho2 : ∀ c ∈ owner, isWordDotDash c = true)
    (hr1 : repo ≠ []) (hr2 : ∀ c ∈ repo, isWordDotDash c = true)
    (hb1 : branch ≠ []) (hb2 : ∀ c ∈ branch, isWordDotDash c = true)
    (hp : ∀ c ∈ path, notLineTerm c = true) :
    ghSearch ('h' :: 't' :: 't' :: 'p' :: 's' :: ':' :: '/' :: '/' ::
        'g' :: 'i' :: 't' :: 'h' :: 'u' :: 'b' :: '.' :: 'c' :: 'o' :: 'm' :: '/' ::
        (owner ++ '/' :: (repo ++ '/' :: 'b' :: 'l' :: 'o' :: 'b' :: '/' ::
          (branch ++ '/' :: path)))) = some (owner, repo, '/' :: branch, path) := by
  have hstep : ∀ (c : Char) (rest : List Char), c ≠ 'g' →
      ghSearch (c :: rest) = ghSearch rest := by
    intro c rest h
    rw [ghSearch_cons, ghAttempt_head_ne c rest h]
  rw [hstep 'h' _ (by decide), hstep 't' _ (by decide), hstep 't' _ (by decide),
    hstep 'p' _ (by decide), hstep 's' _ (by decide), hstep ':' _ (by decide),
    hstep '/' _ (by decide), hstep '/' _ (by decide)]
  rw [ghSearch_cons]
  rw [show ghAttempt ('g' :: 'i' :: 't' :: 'h' :: 'u' :: 'b' :: '.' :: 'c' :: 'o' :: 'm' :: '/' ::
      (owner ++ '/' :: (repo ++ '/' :: 'b' :: 'l' :: 'o' :: 'b' :: '/' ::
        (branch ++ '/' :: path)))) =
      ghAfterHost (owner ++ '/' :: (repo ++ '/' :: 'b' :: 'l' :: 'o' :: 'b' :: '/' ::
        (branch ++ '/' :: path))) from rfl]
  rw [ghAfterHost_exact owner repo branch path ho1 ho2 hr1 hr2 hb1 hb2 hp]

/-- C7: on every blob URL `https://github.com/{owner}/{repo}/blob/{branch}/{path}`
(non-empty `owner`, `repo`, `branch` over the `[\w.-]` class; `path` free
of line terminators), `raw` returns
`https://raw.github.com/{owner}/{repo}/{branch}/{path}`. -/
theorem c7_github_raw_transform (owner repo branch path : String)
    (ho1 : owner.data ≠ []) (ho2 : ∀ c ∈ owner.data, isWordDotDash c = true)
    (hr1 : repo.data ≠ []) (hr2 : ∀ c ∈ repo.data, isWordDotDash c = true)
    (hb1 : branch.data ≠ []) (hb2 : ∀ c ∈ branch.data, isWordDotDash c = true)
    (hp : ∀ c ∈ path.data, notLineTerm c = true) :
    rawOpt ("https://github.com/" ++ owner ++ "/" ++ repo ++ "/blob/" ++ branch ++
        "/" ++ path) =
      some ("https://raw.github.com/" ++ owner ++ "/" ++ repo ++ "/" ++ branch ++
        "/" ++ path) := by
  unfold rawOpt
  rw [show ("https://github.com/" ++ owner ++ "/" ++ repo ++ "/blob/" ++ branch ++
      "/" ++ path).data =
      'h' :: 't' :: 't' :: 'p' :: 's' :: ':' :: '/' :: '/' ::
        'g' :: 'i' :: 't' :: 'h' :: 'u' :: 'b' :: '.' :: 'c' :: 'o' :: 'm' :: '/' ::
        (owner.data ++ '/' :: (repo.data ++ '/' :: 'b' :: 'l' :: 'o' :: 'b' :: '/' ::
          (branch.data ++ '/' :: path.data))) by
    simp only [String.data_append, List.append_assoc]
    rfl]
  rw [ghSearch_blob owner.data repo.data branch.data path.data ho1 ho2 hr1 hr2 hb1 hb2 hp]
  rfl

/-- C7 witness: the spec's own example URL. -/
theorem c7_witness :
    rawOpt "https://github.com/acme/widgets/blob/main/src/a.js" =
      some "https://raw.github.com/acme/widgets/main/src/a.js" :=
  c7_github_raw_transform "acme" "widgets" "main" "src/a.js"
    (by decide) (by decide) (by decide) (by decide) (by decide) (by decide) (by decide)

/-! ## C10 — the completion callback -/

/-- C10: `execute(fn)` never invokes its completion parameter: the
no-manifest-path branch returns without calling it, and `finished` only
inspects the error value.  Every run reports zero invocations of `fn`. -/
theorem c10_callback_never_invoked (pkg : PackageState) (o : String → KeyOracle) :
    (execute pkg o).fnCalls = 0 := by
  unfold execute
  rcases pkg.path with _ | p <;> simp



/-! ## Orchestrator theorems (C2, C8, C9) -/

/-- With a non-selector provider delivering a fresh version and non-empty
content, the key's processing is exactly the `done` persistence step. -/
theorem processKey_eq_runDone (loc : String) (src : List (String × String)) (k : String)
    (b : Bundle) (o : KeyOracle) (l v c : String)
    (hl : b.latest = some l) (hns : selectProvider l ≠ Provider.selector)
    (hreply : o.reply = ProviderReply.callback none (some v) (some c))
    (hv : v ≠ "") (hne : v ≠ b.version) (hc : c ≠ "") :
    processKey loc src k b o = runDone loc k b src v c o := by
  unfold processKey
  rw [hl]
  cases hsel : selectProvider l with
  | selector => exact absurd hsel hns
  | github =>
    rw [hreply]
    simp [hv, hne, hc]
  | req =>
    rw [hreply]
    simp [hv, hne, hc]

/-- C8: a key whose resolved version equals the recorded one terminates
in the `unchanged` state: no write, no in-memory mutation of the entry or
of the manifest source, and no error recorded. -/
theorem c8_unchanged_no_effects (loc : String) (src : List (String × String)) (k : String)
    (b : Bundle) (o : KeyOracle) (l v : String) (cnt : Option String)
    (hl : b.latest = some l) (hns : selectProvider l ≠ Provider.selector)
    (hreply : o.reply = ProviderReply.callback none (some v) cnt)
    (hv : v ≠ "") (heq : v = b.version) :
    processKey loc src k b o = ⟨KeyOutcome.unchanged, b, src, []⟩ ∧
    outcomeErr (processKey loc src k b o).outcome = none := by
  have hv' : b.version ≠ "" := heq ▸ hv
  have hmain : processKey loc src k b o = ⟨KeyOutcome.unchanged, b, src, []⟩ := by
    unfold processKey
    rw [hl]
    cases hsel : selectProvider l with
    | selector => exact absurd hsel hns
    | github =>
      rw [hreply]
      simp [hv', heq]
    | req =>
      rw [hreply]
      simp [hv', heq]
  exact ⟨hmain, by rw [hmain]; rfl⟩

/-- C8 witness: an up-to-date bundle is left fully untouched. -/
theorem c8_witness :
    processKey "/proj/square.json" [("u", "3.3.3")] "u"
        ⟨some "http://cdn.example.com/u.js", "3.3.3", none, "/proj/vendor/u.js", false⟩
        ⟨ProviderReply.callback none (some "3.3.3") none, Except.error "unused", none, none⟩ =
      ⟨KeyOutcome.unchanged,
        ⟨some "http://cdn.example.com/u.js", "3.3.3", none, "/proj/vendor/u.js", false⟩,
        [("u", "3.3.3")], []⟩ ∧
    outcomeErr (processKey "/proj/square.json" [("u", "3.3.3")] "u"
        ⟨some "http://cdn.example.com/u.js", "3.3.3", none, "/proj/vendor/u.js", false⟩
        ⟨ProviderReply.callback none (some "3.3.3") none, Except.error "unused", none,
          none⟩).outcome = none :=
  c8_unchanged_no_effects "/proj/square.json" [("u", "3.3.3")] "u"
    ⟨some "http://cdn.example.com/u.js", "3.3.3", none, "/proj/vendor/u.js", false⟩
    ⟨ProviderReply.callback none (some "3.3.3") none, Except.error "unused", none, none⟩
    "http://cdn.example.com/u.js" "3.3.3" none rfl (by decide) rfl (by decide) rfl

/-- C9: when a write throws during the persistence step, the exception is
reported through the per-key error path, while the entry's `version` and
`content` and the manifest source keep their NEW values — the in-memory
mutation is not rolled back. -/
theorem c9_write_error_keeps_mutation (loc : String) (src : List (String × String))
    (k : String) (b : Bundle) (o : KeyOracle) (l v c e : String)
    (hl : b.latest = some l) (hns : selectProvider l ≠ Provider.selector)
    (hreply : o.reply = ProviderReply.callback none (some v) (some c))
    (hv : v ≠ "") (hne : v ≠ b.version) (hc : c ≠ "")
    (hw : o.manifestWriteErr = some e ∨
      (o.manifestWriteErr = none ∧ o.fileWriteErr = some e)) :
    (processKey loc src k b o).outcome = KeyOutcome.updated (some e) ∧
    (processKey loc src k b o).bundle = { b with version := v, content := some c } ∧
    (processKey loc src k b o).sourceEntries = setVersion src k v ∧
    outcomeErr (processKey loc src k b o).outcome = some e := by
  rw [processKey_eq_runDone loc src k b o l v c hl hns hreply hv hne hc]
  unfold runDone
  rcases hw with hw1 | ⟨hw1, hw2⟩
  · rw [hw1]
    exact ⟨rfl, rfl, rfl, rfl⟩
  · rw [hw1, hw2]
    exact ⟨rfl, rfl, rfl, rfl⟩

/-- C9 witness: a failing bundle-file write (EACCES) is reported while
the mutated version, content and manifest source persist. -/
theorem c9_witness :
    (processKey "/proj/square.json" [("w", "1.0.0")] "w"
        ⟨some "http://cdn.example.com/w.js", "1.0.0", none, "/proj/vendor/w.js", false⟩
        ⟨ProviderReply.callback none (some "2.0.0") (some "var w;"), Except.error "unused",
          none, some "EACCES"⟩).outcome = KeyOutcome.updated (some "EACCES") ∧
    (processKey "/proj/square.json" [("w", "1.0.0")] "w"
        ⟨some "http://cdn.example.com/w.js", "1.0.0", none, "/proj/vendor/w.js", false⟩
        ⟨ProviderReply.callback none (some "2.0.0") (some "var w;"), Except.error "unused",
          none, some "EACCES"⟩).bundle =
      ⟨some "http://cdn.example.com/w.js", "2.0.0", some "var w;", "/proj/vendor/w.js",
        false⟩ ∧
    (processKey "/proj/square.json" [("w", "1.0.0")] "w"
        ⟨some "http://cdn.example.com/w.js", "1.0.0", none, "/proj/vendor/w.js", false⟩
        ⟨ProviderReply.callback none (some "2.0.0") (some "var w;"), Except.error "unused",
          none, some "EACCES"⟩).sourceEntries = setVersion [("w", "1.0.0")] "w" "2.0.0" ∧
    outcomeErr (processKey "/proj/square.json" [("w", "1.0.0")] "w"
        ⟨some "http://cdn.example.com/w.js", "1.0.0", none, "/proj/vendor/w.js", false⟩
        ⟨ProviderReply.callback none (some "2.0.0") (some "var w;"), Except.error "unused",
          none, some "EACCES"⟩).outcome = some "EACCES" :=
  c9_write_error_keeps_mutation "/proj/square.json" [("w", "1.0.0")] "w"
    ⟨some "http://cdn.example.com/w.js", "1.0.0", none, "/proj/vendor/w.js", false⟩
    ⟨ProviderReply.callback none (some "2.0.0") (some "var w;"), Except.error "unused",
      none, some "EACCES"⟩
    "http://cdn.example.com/w.js" "2.0.0" "var w;" "EACCES"
    rfl (by decide) rfl (by decide) (by decide) (by decide) (Or.inr ⟨rfl, rfl⟩)

/-- Folding further keys only appends to the write and outcome logs. -/
theorem foldl_stepKey_acc (loc : String) (o : String → KeyOracle) :
    ∀ (ys : List (String × Bundle)) (st : RunState),
      ∃ w outs, (ys.foldl (stepKey loc o) st).writes = st.writes ++ w ∧
        (ys.foldl (stepKey loc o) st).outcomes = st.outcomes ++ outs := by
  intro ys
  induction ys with
  | nil =>
    intro st
    exact ⟨[], [], by simp, by simp⟩
  | cons y t ih =>
    intro st
    obtain ⟨w, outs, hw, ho⟩ := ih (stepKey loc o st y)
    refine ⟨(processKey loc st.sourceEntries y.1 y.2 (o y.1)).writes ++ w,
      (y.1, (processKey loc st.sourceEntries y.1 y.2 (o y.1)).outcome) :: outs, ?_, ?_⟩
    · rw [List.foldl_cons, hw]
      simp [stepKey, List.append_assoc]
    · rw [List.foldl_cons, ho]
      simp [stepKey, List.append_assoc]

/-- Whatever `finished` receives — `null` or a single first `Error` — the
`err.forEach` guard fails, so the logged list is empty. -/
theorem finishedLogs_run (eo : Option String) (pend : Bool) :
    (if eo.isSome || !pend then
        finishedLogs (match eo with
          | some m => JsVal.jsError m
          | none => JsVal.jsNull)
      else []) = [] := by
  cases eo <;> split <;> rfl

/-- C2 amended: one key's failure does not prevent any other key from
being processed — a key that succeeds is still updated and persisted no
matter what the other keys' oracles deliver — and the run raises no
process-level error; BUT the per-key errors are not collected:
`async.forEach` hands `finished` only a single first `Error`, the
`err.forEach` guard therefore fails, and nothing is logged at the end of
the run. -/
theorem c2_errors_unlogged_success_persisted
    (pkg : PackageState) (o : String → KeyOracle)
    (pre post : List (String × Bundle)) (k : String) (b : Bundle)
    (l v c p : String)
    (hpath : pkg.path = some p)
    (hsplit : pkg.bundleEntries = pre ++ (k, b) :: post)
    (hl : b.latest = some l) (hns : selectProvider l ≠ Provider.selector)
    (hreply : (o k).reply = ProviderReply.callback none (some v) (some c))
    (hv : v ≠ "") (hne : v ≠ b.version) (hc : c ≠ "")
    (hw1 : (o k).manifestWriteErr = none) (hw2 : (o k).fileWriteErr = none) :
    (execute pkg o).logged = [] ∧
    (k, KeyOutcome.updated none) ∈ (execute pkg o).outcomes ∧
    (∃ m, (pkg.location, FileData.manifestDoc m) ∈ (execute pkg o).writes) ∧
    (b.metaLocation, FileData.rawText c) ∈ (execute pkg o).writes := by
  obtain ⟨entries, path, src0, loc⟩ := pkg
  simp only at hpath hsplit ⊢
  subst hpath
  subst hsplit
  set st0 : RunState := ⟨[], src0, [], []⟩ with hst0
  set st1 := pre.foldl (stepKey loc o) st0 with hst1
  have hstep2 : stepKey loc o st1 (k, b) =
      ⟨st1.bundles ++ [(k, { b with version := v, content := some c })],
        setVersion st1.sourceEntries k v,
        st1.writes ++ [(loc, FileData.manifestDoc (setVersion st1.sourceEntries k v)),
          (b.metaLocation, FileData.rawText c)],
        st1.outcomes ++ [(k, KeyOutcome.updated none)]⟩ := by
    unfold stepKey
    rw [processKey_eq_runDone loc st1.sourceEntries k b (o k) l v c hl hns hreply hv hne hc]
    unfold runDone
    rw [hw1, hw2]
  have hfold : (pre ++ (k, b) :: post).foldl (stepKey loc o) st0 =
      post.foldl (stepKey loc o) (stepKey loc o st1 (k, b)) := by
    rw [List.foldl_append, List.foldl_cons]
  obtain ⟨w, outs, hwacc, hoacc⟩ := foldl_stepKey_acc loc o post (stepKey loc o st1 (k, b))
  have hwrites : (execute ⟨pre ++ (k, b) :: post, some p, src0, loc⟩ o).writes =
      st1.writes ++ [(loc, FileData.manifestDoc (setVersion st1.sourceEntries k v)),
        (b.metaLocation, FileData.rawText c)] ++ w := by
    show ((pre ++ (k, b) :: post).foldl (stepKey loc o) st0).writes = _
    rw [hfold, hwacc, hstep2]
  have houts : (execute ⟨pre ++ (k, b) :: post, some p, src0, loc⟩ o).outcomes =
      st1.outcomes ++ [(k, KeyOutcome.updated none)] ++ outs := by
    show ((pre ++ (k, b) :: post).foldl (stepKey loc o) st0).outcomes = _
    rw [hfold, hoacc, hstep2]
  refine ⟨?_, ?_, ?_, ?_⟩
  · show (if _ then finishedLogs _ else []) = []
    exact finishedLogs_run _ _
  · rw [houts]
    simp
  · exact ⟨setVersion st1.sourceEntries k v, by rw [hwrites]; simp⟩
  · rw [hwrites]
    simp

/-- C2 witness: a concrete two-bundle run in which key `a` fails and key
`b` succeeds — `b` is updated and persisted, nothing is logged. -/
theorem c2_witness :
    (execute pkgTwo oracleTwo).logged = [] ∧
    ("b", KeyOutcome.updated none) ∈ (execute pkgTwo oracleTwo).outcomes ∧
    (∃ m, (pkgTwo.location, FileData.manifestDoc m) ∈ (execute pkgTwo oracleTwo).writes) ∧
    (bundleB.metaLocation, FileData.rawText "var b = 2;") ∈ (execute pkgTwo oracleTwo).writes :=
  c2_errors_unlogged_success_persisted pkgTwo oracleTwo [("a", bundleA)] [] "b" bundleB
    "http://cdn.example.com/b.js" "2.0.0" "var b = 2;" "/proj"
    rfl rfl rfl (by decide) rfl (by decide) (by decide) (by decide) rfl rfl

/-- C2 counterexample: in the same two-bundle run the failing key's error
is recorded in the outcomes, yet the end-of-run logging emits NOTHING —
`async.forEach` delivers one `Error`, not an array, so the
`err.forEach`-guarded loop at the end never logs the collected errors the
claim promises. -/
theorem c2_counterexample :
    (execute pkgTwo oracleTwo).outcomes =
      [("a", KeyOutcome.failed "getaddrinfo ENOTFOUND"), ("b", KeyOutcome.updated none)] ∧
    (execute pkgTwo oracleTwo).finalErr = JsVal.jsError "getaddrinfo ENOTFOUND" ∧
    (execute pkgTwo oracleTwo).logged = [] := by
  refine ⟨by decide, by decide, by decide⟩
